import Mathlib

/-!
Shallow embedding of the reactive snake game (`src/index.ts` and its
keyboard-only variant). Observables are modelled as finite lists of
emissions; each RxJS operator used by the pipelines is given its
documented list semantics (`scan` without a seed passes the first
source value through as the accumulator seed, `startWith` prepends,
`distinctUntilChanged` drops emissions equal to the previous one,
`withLatestFrom` samples the latest stored value, `combineLatest`
emits the latest of every input once all have produced a value,
`switchMap` discards the current inner subscription when a new outer
value arrives, `takeWhile` completes on the first failing element).
The pure geometry helpers live in `game.util.ts`, which is not part of
the available sources; those functions are modelled from the spec and
carry a `Modelled from the spec:` note.
-/

namespace RxSnake

/-- A grid cell or a unit direction vector, from `types.ts`. -/
structure Point2D where
  x : Int
  y : Int
deriving DecidableEq, Repr

/-- Vector addition of a cell and a direction, as in new head = head + direction. -/
def addPoint (p d : Point2D) : Point2D := ⟨p.x + d.x, p.y + d.y⟩

/-- `DIRECTIONS['ArrowLeft']`. -/
def leftDir : Point2D := ⟨-1, 0⟩

/-- `DIRECTIONS['ArrowRight']`. -/
def rightDir : Point2D := ⟨1, 0⟩

/-- `DIRECTIONS['ArrowUp']`. -/
def upDir : Point2D := ⟨0, -1⟩

/-- `DIRECTIONS['ArrowDown']`. -/
def downDir : Point2D := ⟨0, 1⟩

/-- `INITIAL_DIRECTION = DIRECTIONS['ArrowDown']`. -/
def INITIAL_DIRECTION : Point2D := downDir

/-- The exact 180-degree reversal of a direction vector. -/
def oppositeDir (d : Point2D) : Point2D := ⟨-d.x, -d.y⟩

/-- Modelled from the spec: `nextDirection` from the missing `game.util.ts`
(§4.1): rejects the requested direction when it is the exact opposite of
the previous one, otherwise returns the requested direction. -/
def nextDirection (previous requested : Point2D) : Point2D :=
  if requested = oppositeDir previous then previous else requested

/-- RxJS `scan(f)` with no seed: the first source emission passes through
unchanged and becomes the accumulator seed; every later emission is
`f acc value`. `scanTail` handles the emissions after the seed. -/
def scanTail (f : α → α → α) (acc : α) : List α → List α
  | [] => []
  | b :: bs => f acc b :: scanTail f (f acc b) bs

/-- RxJS `scan(f)` with no seed, full emission list. -/
def scanNoSeed (f : α → α → α) : List α → List α
  | [] => []
  | a :: as => a :: scanTail f a as

/-- RxJS `distinctUntilChanged()`: drop an emission equal to the previous
emitted one. -/
def distinctUntilChanged [DecidableEq α] : List α → List α
  | [] => []
  | a :: as => a :: dropEq a as
where
  /-- Emissions after `prev` with consecutive duplicates removed. -/
  dropEq (prev : α) : List α → List α
    | [] => []
    | b :: bs => if b = prev then dropEq prev bs else b :: dropEq b bs

/-- The `direction$` pipeline from `index.ts`: mapped and filtered input
events (already resolved to direction vectors) flow through an unseeded
`scan(nextDirection)`, then `startWith(INITIAL_DIRECTION)`, then
`distinctUntilChanged()`. -/
def directionStream (inputs : List Point2D) : List Point2D :=
  distinctUntilChanged (INITIAL_DIRECTION :: scanNoSeed nextDirection inputs)

/-- The accepted-direction sequence produced by `scan(nextDirection)`,
before `startWith` and deduplication. -/
def acceptedDirs (inputs : List Point2D) : List Point2D :=
  scanNoSeed nextDirection inputs

/-- Emissions of the `length$` BehaviorSubject as seen by `snakeLength$`:
the seed `SNAKE_LENGTH` followed by one `POINTS_PER_APPLE` push per
detected food consumption (the `tap` in `appleEaten$`). `P` is
`POINTS_PER_APPLE`, `L` is `SNAKE_LENGTH`, `N` the number of consumptions. -/
def lengthSourceEmissions (P L N : ℕ) : List ℕ :=
  L :: List.replicate N P

/-- `snakeLength$ = length$.pipe(scan((step, snakeLength) => snakeLength + step))`:
an unseeded scan whose accumulator is the running target length. -/
def snakeLengthEmissions (P L N : ℕ) : List ℕ :=
  scanNoSeed (fun step snakeLength => snakeLength + step) (lengthSourceEmissions P L N)

/-- The source emissions `score$` actually receives: `snakeLength$` is
`share()`d and its BehaviorSubject baseline emission is consumed when
`snake$` (via the earlier `appleEaten$.subscribe()`) first subscribes,
before `score$` subscribes; so `score$` sees `startWith(0)` followed by
only the post-baseline emissions of `snakeLength$`. -/
def scoreSourceEmissions (P L N : ℕ) : List ℕ :=
  0 :: (snakeLengthEmissions P L N).tail

/-- `score$ = ... startWith(0), scan((score, _) => score + POINTS_PER_APPLE)`:
the unseeded scan passes the leading 0 through and adds `P` per
subsequent emission. -/
def scoreEmissions (P L N : ℕ) : List ℕ :=
  scanNoSeed (fun score _ => score + P) (scoreSourceEmissions P L N)

lemma scanTail_length (f : α → α → α) (acc : α) (l : List α) :
    (scanTail f acc l).length = l.length := by
  induction l generalizing acc with
  | nil => rfl
  | cons b bs ih => simp [scanTail, ih]

lemma snakeLength_scan_last (P : ℕ) :
    ∀ (N acc : ℕ),
      (acc :: scanTail (fun step snakeLength => snakeLength + step) acc
          (List.replicate N P)).getLast? = some (acc + N * P) := by
  intro N
  induction N with
  | zero => intro acc; simp [scanTail]
  | succ n ih =>
      intro acc
      have h := ih (P + acc)
      simp only [List.replicate_succ, scanTail, List.getLast?_cons_cons] at h ⊢
      rw [h]
      congr 1
      ring

lemma score_scan_last (P : ℕ) :
    ∀ (l : List ℕ) (acc : ℕ),
      (acc :: scanTail (fun score _ => score + P) acc l).getLast? =
        some (acc + l.length * P) := by
  intro l
  induction l with
  | nil => intro acc; simp [scanTail]
  | cons b bs ih =>
      intro acc
      have h := ih (acc + P)
      simp only [scanTail, List.getLast?_cons_cons] at h ⊢
      rw [h]
      simp [List.length_cons]
      ring

lemma snakeLengthEmissions_last (P L N : ℕ) :
    (snakeLengthEmissions P L N).getLast? = some (L + N * P) := by
  unfold snakeLengthEmissions lengthSourceEmissions scanNoSeed
  exact snakeLength_scan_last P N L

lemma snakeLengthEmissions_tail_length (P L N : ℕ) :
    (snakeLengthEmissions P L N).tail.length = N := by
  unfold snakeLengthEmissions lengthSourceEmissions scanNoSeed
  simp [scanTail_length]

lemma scoreEmissions_last (P L N : ℕ) :
    (scoreEmissions P L N).getLast? = some (N * P) := by
  unfold scoreEmissions scoreSourceEmissions scanNoSeed
  have h := score_scan_last P ((snakeLengthEmissions P L N).tail) 0
  rw [h, snakeLengthEmissions_tail_length]
  simp

/-- Modelled from the spec: grid width, an initial configuration constant
owned by the missing `constants.ts`; the end-to-end scenario in §8 uses a
20×20 grid. -/
def COLS : ℕ := 20

/-- Modelled from the spec: grid height (§8 scenario, 20×20 grid). -/
def ROWS : ℕ := 20

/-- Every cell of the configured grid, row-major. -/
def allCells : List Point2D :=
  (List.range COLS).flatMap fun x => (List.range ROWS).map fun y => ⟨(x : Int), (y : Int)⟩

/-- The per-tick command sampled by `snake$`'s `withLatestFrom`: the latest
direction, target length and pause flag at tick time. -/
structure MoveArgs where
  direction : Point2D
  snakeLength : ℕ
  paused : Bool
deriving DecidableEq, Repr

/-- Modelled from the spec: `move` from the missing `game.util.ts` (§4.1):
when paused it returns the snake unchanged; otherwise it computes the new
head as head + direction, prepends it, and truncates the tail so the
resulting length equals the target length. -/
def move (snake : List Point2D) (args : MoveArgs) : List Point2D :=
  if args.paused then snake
  else
    match snake with
    | [] => []
    | h :: t => List.take args.snakeLength (addPoint h args.direction :: h :: t)

/-- First grid cell not occupied by any cell of `occupied`; stands for the
random placement of a replacement food item (the spec only requires the
chosen cell to avoid the snake and the remaining food). -/
def freshCell (occupied : List Point2D) : Option Point2D :=
  allCells.find? fun c => !(occupied.contains c)

/-- Modelled from the spec: `eat` from the missing `game.util.ts` (§4.1):
if the snake's head coincides with a food cell, that cell is removed and
one replacement cell not occupied by the snake or the remaining food is
added; otherwise the food set is returned unchanged. -/
def eat (apples : List Point2D) (snake : List Point2D) : List Point2D :=
  match snake with
  | [] => apples
  | head :: _ =>
    if apples.contains head then
      let remaining := apples.erase head
      match freshCell (snake ++ remaining) with
      | some c => remaining ++ [c]
      | none => remaining
    else apples

/-- The composite snapshot `{snake, apples, score}` built by `scene$`. -/
structure Scene where
  snake : List Point2D
  apples : List Point2D
  score : ℕ
deriving DecidableEq, Repr

/-- Modelled from the spec: `isGameOver` from the missing `game.util.ts`
(§4.1): true iff the snake's head coincides with any other snake cell or
lies outside the configured grid bounds. -/
def isGameOver (scene : Scene) : Bool :=
  match scene.snake with
  | [] => false
  | h :: body =>
      body.contains h || decide (h.x < 0) || decide ((COLS : Int) ≤ h.x) ||
        decide (h.y < 0) || decide ((ROWS : Int) ≤ h.y)

/-- Modelled from the spec: `incrementSnakeSpeed` from the missing
`game.util.ts` (§4.1): decreases the tick interval by the configured fixed
step, floored at the configured minimum interval. Parameterized by the
config constants `minInterval` and `step` owned by the missing
`constants.ts`. -/
def incrementSnakeSpeed (minInterval step current : ℕ) : ℕ :=
  max minInterval (current - step)

/-- The tick-interval value after `n` food consumptions: `SPEED` starts at
the configured initial interval and each consumption applies
`incrementSnakeSpeed` (the `tap` in `appleEaten$`). -/
def speedAt (minInterval step s0 : ℕ) : ℕ → ℕ
  | 0 => s0
  | n + 1 => incrementSnakeSpeed minInterval step (speedAt minInterval step s0 n)

/-- The render loop `game$`, after the `withLatestFrom` sampling step:
given the successive sampled scenes, `takeWhile(scene => !isGameOver(scene))`
renders each passing scene through the `next` handler (`renderScene`) and,
on the first game-over sample, completes — invoking the `complete` handler
(`renderGameOver`) once and sampling nothing further. Returns the list of
scenes handed to `renderScene` and the number of `renderGameOver` calls. -/
def runRenderLoop : List Scene → List Scene × ℕ
  | [] => ([], 0)
  | s :: rest =>
      if isGameOver s then ([], 1)
      else
        let r := runRenderLoop rest
        (s :: r.1, r.2)

/-- An event observed by `game$`'s `withLatestFrom(scene$)`: either an
animation-frame tick or an emission of `scene$`. -/
inductive GEvent where
  | frame : GEvent
  | sceneEmit : Scene → GEvent
deriving DecidableEq, Repr

/-- `withLatestFrom(scene$)` as a fold over the interleaved event trace:
a frame with no stored scene is dropped; a frame with a stored latest
scene samples it; a scene emission replaces the stored latest value. -/
def sampledScenes (latest : Option Scene) : List GEvent → List Scene
  | [] => []
  | GEvent.frame :: rest =>
      match latest with
      | some s => s :: sampledScenes latest rest
      | none => sampledScenes latest rest
  | GEvent.sceneEmit s :: rest => sampledScenes (some s) rest

/-- The samples produced by `game$` from a whole event trace (no scene
stored before the first `scene$` emission). -/
def gameSamples (events : List GEvent) : List Scene :=
  sampledScenes none events

/-- An emission of one of the three inputs of `combineLatest(snake$, apples$, score$)`. -/
inductive SEvent where
  | snakeE : List Point2D → SEvent
  | applesE : List Point2D → SEvent
  | scoreE : ℕ → SEvent
deriving DecidableEq, Repr

/-- The latest-value store of `combineLatest`: one optional slot per input. -/
structure CLState where
  sn : Option (List Point2D)
  ap : Option (List Point2D)
  sc : Option ℕ
deriving DecidableEq, Repr

/-- Updating the latest-value store on one input emission. -/
def clStep (st : CLState) : SEvent → CLState
  | SEvent.snakeE v => { st with sn := some v }
  | SEvent.applesE v => { st with ap := some v }
  | SEvent.scoreE v => { st with sc := some v }

/-- The scene `combineLatest` can emit from a store: defined only once
every input has produced a value. -/
def emitOf (st : CLState) : Option Scene :=
  match st.sn, st.ap, st.sc with
  | some a, some b, some c => some ⟨a, b, c⟩
  | _, _, _ => none

/-- The empty latest-value store at subscription time. -/
def clInit : CLState := ⟨none, none, none⟩

/-- `combineLatest(snake$, apples$, score$)` (mapped into a `Scene`) as a
fold over the interleaved emission trace: on each input emission the store
is updated and, once all three inputs have emitted, a composite scene of
the stored latest values is emitted. -/
def combineLatest3 (st : CLState) : List SEvent → List Scene
  | [] => []
  | e :: rest =>
      match emitOf (clStep st e) with
      | some s => s :: combineLatest3 (clStep st e) rest
      | none => combineLatest3 (clStep st e) rest

/-- The emissions of `scene$` for an interleaved input trace. -/
def sceneEmissions (events : List SEvent) : List Scene :=
  combineLatest3 clInit events

/-- Specification-style description of `scene$`: for the prefix of the
trace ending at each event, emit the composite of the latest value of
each input, provided all three are present. -/
def sceneEmissionsSpec (events : List SEvent) : List Scene :=
  (List.range events.length).filterMap fun i =>
    emitOf (List.foldl clStep clInit (events.take (i + 1)))

/-- A step of the `ticks$` pipeline, `speedSubject.pipe(switchMap(v => interval(v)))`:
either the speed subject emits a new interval value, or a tick opportunity
occurs on which every currently subscribed periodic source fires. -/
inductive TickCmd where
  | speed : ℕ → TickCmd
  | tick : TickCmd
deriving DecidableEq, Repr

/-- `switchMap`'s subscription discipline on the active inner periodic
sources: a new outer value unsubscribes the current inner source and
subscribes a fresh `interval` at the new period; a tick leaves the
subscriptions unchanged. -/
def switchStep (active : List ℕ) : TickCmd → List ℕ
  | TickCmd.speed v => [v]
  | TickCmd.tick => active

/-- The periodic sources still subscribed after a command trace, starting
from the `BehaviorSubject`'s immediate initial interval `s0`. -/
def activeIntervals (s0 : ℕ) (cmds : List TickCmd) : List ℕ :=
  cmds.foldl switchStep [s0]

/-- The latest interval value emitted by the speed subject. -/
def latestSpeed (s0 : ℕ) (cmds : List TickCmd) : ℕ :=
  cmds.foldl (fun a c => match c with | TickCmd.speed v => v | TickCmd.tick => a) s0

/-- For each tick opportunity of the trace, the periods of the periodic
sources that fire on it. -/
def tickFirings (active : List ℕ) : List TickCmd → List (List ℕ)
  | [] => []
  | TickCmd.speed v :: rest => tickFirings [v] rest
  | TickCmd.tick :: rest => active :: tickFirings active rest

/-- C1: after exactly N food consumptions the emitted score equals
`N * POINTS_PER_APPLE` and the emitted target length equals the initial
configured length plus N times the fixed length step (which the code sets
to `POINTS_PER_APPLE`), for every choice of the configuration constants. -/
theorem claim_C1_score_and_length (P L N : ℕ) :
    (scoreEmissions P L N).getLast? = some (N * P) ∧
    (snakeLengthEmissions P L N).getLast? = some (L + N * P) :=
  ⟨scoreEmissions_last P L N, snakeLengthEmissions_last P L N⟩

/-- C9: every detected food consumption pushes `POINTS_PER_APPLE` into the
length accumulator, so after N consumptions the target length is
`SNAKE_LENGTH + N * POINTS_PER_APPLE` and each further consumption grows
it by exactly `POINTS_PER_APPLE` — the same constant as the score award,
not an independent length step. -/
theorem claim_C9_growth_step (P L N : ℕ) :
    (snakeLengthEmissions P L N).getLast? = some (L + N * P) ∧
    (snakeLengthEmissions P L (N + 1)).getLast? =
      ((snakeLengthEmissions P L N).getLast?).map (· + P) := by
  refine ⟨snakeLengthEmissions_last P L N, ?_⟩
  rw [snakeLengthEmissions_last, snakeLengthEmissions_last]
  simp [Option.map]
  ring

/-- C5: `move` with `paused = true` is the strict identity on the snake for
every direction and target length; an unpaused step whose target length
equals the current length (no food consumed) preserves the length, puts
head + direction at the head, and keeps the old head as the second
element. -/
theorem claim_C5_move :
    (∀ (s : List Point2D) (d : Point2D) (tl : ℕ), move s ⟨d, tl, true⟩ = s) ∧
    (∀ (h a : Point2D) (t : List Point2D) (d : Point2D),
      (move (h :: a :: t) ⟨d, (h :: a :: t).length, false⟩).length =
        (h :: a :: t).length ∧
      (move (h :: a :: t) ⟨d, (h :: a :: t).length, false⟩).head? =
        some (addPoint h d) ∧
      (move (h :: a :: t) ⟨d, (h :: a :: t).length, false⟩).tail.head? = some h) := by
  constructor
  · intro s d tl
    simp [move]
  · intro h a t d
    simp [move, List.length_cons, List.take_succ_cons]

/-- C8: `incrementSnakeSpeed` never returns a value below the configured
minimum interval; starting from an initial interval at or above the
minimum, the tick-interval sequence is monotonically non-increasing,
bounded below by the minimum, and strictly decreasing until the floor is
reached. -/
theorem claim_C8_speed (minInterval step s0 : ℕ) (hstep : 0 < step)
    (hs0 : minInterval ≤ s0) :
    (∀ i, minInterval ≤ incrementSnakeSpeed minInterval step i) ∧
    ∀ n, minInterval ≤ speedAt minInterval step s0 n ∧
      speedAt minInterval step s0 (n + 1) ≤ speedAt minInterval step s0 n ∧
      (minInterval < speedAt minInterval step s0 n →
        speedAt minInterval step s0 (n + 1) < speedAt minInterval step s0 n) := by
  have hbound : ∀ i, minInterval ≤ incrementSnakeSpeed minInterval step i :=
    fun i => le_max_left _ _
  refine ⟨hbound, ?_⟩
  have hinv : ∀ n, minInterval ≤ speedAt minInterval step s0 n := by
    intro n
    cases n with
    | zero => exact hs0
    | succ m => exact hbound _
  intro n
  refine ⟨hinv n, ?_, ?_⟩
  · exact max_le (hinv n) (Nat.sub_le _ _)
  · intro hlt
    exact Nat.max_lt.mpr
      ⟨hlt, Nat.sub_lt (Nat.lt_of_le_of_lt (Nat.zero_le _) hlt) hstep⟩

/-- Witness for C8 at the initial interval 150 from `index.ts` and a
minimum of 50 with step 10. -/
theorem claim_C8_speed_witness :
    50 ≤ incrementSnakeSpeed 50 10 150 ∧
    speedAt 50 10 150 1 < speedAt 50 10 150 0 :=
  ⟨(claim_C8_speed 50 10 150 (by decide) (by decide)).1 150,
   ((claim_C8_speed 50 10 150 (by decide) (by decide)).2 0).2.2 (by decide)⟩

lemma scanTail_getElem?_succ (f : α → α → α) :
    ∀ (as : List α) (acc : α) (i : ℕ) (p d : α),
      (acc :: scanTail f acc as)[i]? = some p → as[i]? = some d →
      (scanTail f acc as)[i]? = some (f p d) := by
  intro as
  induction as with
  | nil =>
      intro acc i p d _ hd
      simp at hd
  | cons b bs ih =>
      intro acc i p d hp hd
      cases i with
      | zero =>
          simp at hp hd
          subst hp
          subst hd
          simp [scanTail]
      | succ j =>
          simp only [List.getElem?_cons_succ] at hp hd
          simp only [scanTail, List.getElem?_cons_succ]
          exact ih (f acc b) j p d hp hd

lemma acceptedDirs_step :
    ∀ (inputs : List Point2D) (i : ℕ) (p d : Point2D),
      (acceptedDirs inputs)[i]? = some p → inputs[i + 1]? = some d →
      (acceptedDirs inputs)[i + 1]? = some (nextDirection p d) := by
  intro inputs i p d hp hd
  cases inputs with
  | nil => simp [acceptedDirs, scanNoSeed] at hp
  | cons a as =>
      simp only [acceptedDirs, scanNoSeed] at hp ⊢
      simp only [List.getElem?_cons_succ] at hd ⊢
      exact scanTail_getElem?_succ nextDirection as a i p d hp hd

/-- C2 counterexample: the resolved direction stream for the single input
"up" — the exact opposite of the initial downward direction — emits
`[down, up]`: the very first accepted input is NOT validated against the
initial direction (the unseeded `scan` passes it through), even though
`nextDirection` would have rejected it. -/
theorem claim_C2_counterexample :
    directionStream [upDir] = [downDir, upDir] ∧
    nextDirection INITIAL_DIRECTION upDir = INITIAL_DIRECTION ∧
    upDir = oppositeDir INITIAL_DIRECTION := by
  refine ⟨?_, ?_, ?_⟩ <;> decide

/-- C2 (amended): the first emission of the resolved direction stream is
the configured initial downward direction before any input arrives, and
every accepted direction after the first input is obtained by combining
the incoming direction with the previously accepted one through
`nextDirection` (reversals rejected); but the very first accepted input is
emitted as-is, without validation against the initial direction — `scan`
is unseeded and `startWith` is applied downstream of it — so a first
keypress exactly opposite the initial direction does change the
direction. -/
theorem claim_C2_amended :
    (∀ inputs : List Point2D,
      (directionStream inputs).head? = some INITIAL_DIRECTION) ∧
    (∀ (d : Point2D) (ds : List Point2D), d ≠ INITIAL_DIRECTION →
      (directionStream (d :: ds)).take 2 = [INITIAL_DIRECTION, d]) ∧
    (∀ (inputs : List Point2D) (i : ℕ) (p d : Point2D),
      (acceptedDirs inputs)[i]? = some p → inputs[i + 1]? = some d →
      (acceptedDirs inputs)[i + 1]? = some (nextDirection p d)) := by
  refine ⟨?_, ?_, acceptedDirs_step⟩
  · intro inputs
    simp [directionStream, distinctUntilChanged]
  · intro d ds hne
    simp [directionStream, distinctUntilChanged, scanNoSeed,
      distinctUntilChanged.dropEq, hne]

/-- Witness for C2 (amended) on the input sequence [left, right]: the head
is the initial direction, the unvalidated first input left is the second
emission, and the second input right (the reversal of left) is combined
through `nextDirection` and rejected. -/
theorem claim_C2_amended_witness :
    (directionStream [leftDir, rightDir]).head? = some INITIAL_DIRECTION ∧
    (directionStream (leftDir :: [rightDir])).take 2 =
      [INITIAL_DIRECTION, leftDir] ∧
    (acceptedDirs [leftDir, rightDir])[1]? =
      some (nextDirection leftDir rightDir) :=
  ⟨claim_C2_amended.1 [leftDir, rightDir],
   claim_C2_amended.2.1 leftDir [rightDir] (by decide),
   claim_C2_amended.2.2 [leftDir, rightDir] 0 leftDir rightDir
     (by decide) (by decide)⟩

/-- C3: for every run of the render loop whose sampled scenes consist of
non-game-over scenes followed by a first game-over scene (and anything
after it), the loop renders exactly the earlier samples through the normal
scene renderer, invokes the game-over renderer exactly once, and processes
no further samples. -/
theorem claim_C3_render_loop (pre : List Scene) (s : Scene) (post : List Scene)
    (hpre : ∀ x ∈ pre, isGameOver x = false) (hs : isGameOver s = true) :
    runRenderLoop (pre ++ s :: post) = (pre, 1) := by
  induction pre with
  | nil => simp [runRenderLoop, hs]
  | cons a as ih =>
      have ha : isGameOver a = false := hpre a (by simp)
      have hrest := ih fun x hx => hpre x (by simp [hx])
      simp [runRenderLoop, ha, hrest]

/-- Witness for C3: one in-bounds collision-free sample followed by a
sample whose head has left the grid. -/
theorem claim_C3_render_loop_witness :
    runRenderLoop [⟨[⟨1, 1⟩, ⟨1, 0⟩], [⟨3, 3⟩], 0⟩,
        ⟨[⟨-1, 0⟩, ⟨0, 0⟩], [⟨3, 3⟩], 0⟩] =
      ([⟨[⟨1, 1⟩, ⟨1, 0⟩], [⟨3, 3⟩], 0⟩], 1) :=
  claim_C3_render_loop [⟨[⟨1, 1⟩, ⟨1, 0⟩], [⟨3, 3⟩], 0⟩]
    ⟨[⟨-1, 0⟩, ⟨0, 0⟩], [⟨3, 3⟩], 0⟩ [] (by decide) (by decide)

lemma activeIntervals_eq :
    ∀ (cmds : List TickCmd) (v : ℕ),
      List.foldl switchStep [v] cmds =
        [List.foldl (fun a c => match c with
          | TickCmd.speed w => w | TickCmd.tick => a) v cmds] := by
  intro cmds
  induction cmds with
  | nil => intro v; rfl
  | cons c rest ih =>
      intro v
      cases c with
      | speed w => simpa [switchStep] using ih w
      | tick => simpa [switchStep] using ih v

lemma tickFirings_singleton :
    ∀ (cmds : List TickCmd) (v : ℕ),
      ∀ firing ∈ tickFirings [v] cmds, firing.length = 1 := by
  intro cmds
  induction cmds with
  | nil => intro v firing hf; simp [tickFirings] at hf
  | cons c rest ih =>
      intro v firing hf
      cases c with
      | speed w =>
          exact ih w firing (by simpa [tickFirings] using hf)
      | tick =>
          simp only [tickFirings, List.mem_cons] at hf
          cases hf with
          | inl h => subst h; rfl
          | inr h => exact ih v firing h

/-- C4: the tick source restarts with switch-to-latest semantics: after any
trace of speed changes and tick opportunities, the subscribed periodic
source is exactly the one created from the latest emitted interval (the
old one having been discarded), and every tick opportunity fires exactly
one periodic source — never two concurrently, so no double movement per
effective interval. -/
theorem claim_C4_switch_latest (s0 : ℕ) (cmds : List TickCmd) :
    activeIntervals s0 cmds = [latestSpeed s0 cmds] ∧
    ∀ firing ∈ tickFirings [s0] cmds, firing.length = 1 :=
  ⟨activeIntervals_eq cmds s0, tickFirings_singleton cmds s0⟩

/-- Witness for C4: initial interval 150, then a tick, a speed change to
140, and another tick. -/
theorem claim_C4_switch_latest_witness :
    activeIntervals 150 [TickCmd.tick, TickCmd.speed 140, TickCmd.tick] =
      [latestSpeed 150 [TickCmd.tick, TickCmd.speed 140, TickCmd.tick]] ∧
    ([140] : List ℕ).length = 1 :=
  ⟨(claim_C4_switch_latest 150
      [TickCmd.tick, TickCmd.speed 140, TickCmd.tick]).1,
   (claim_C4_switch_latest 150
      [TickCmd.tick, TickCmd.speed 140, TickCmd.tick]).2 [140] (by decide)⟩

/-- C6: when the snake's head lies on no food cell, `eat` returns the food
set unchanged; when the head lies on a food cell and some grid cell is
free of both the snake and the remaining food, the result removes the
eaten cell and adds one replacement cell disjoint from the snake body, so
the food set size is unchanged. -/
theorem claim_C6_eat :
    (∀ (apples : List Point2D) (h : Point2D) (t : List Point2D),
      h ∉ apples → eat apples (h :: t) = apples) ∧
    (∀ (apples : List Point2D) (h : Point2D) (t : List Point2D),
      h ∈ apples →
      (∃ c0 ∈ allCells, c0 ∉ (h :: t) ++ apples.erase h) →
      ∃ c, eat apples (h :: t) = apples.erase h ++ [c] ∧ c ∉ h :: t ∧
        (eat apples (h :: t)).length = apples.length) := by
  constructor
  · intro apples h t hnot
    simp [eat, hnot]
  · intro apples h t hmem hfree
    obtain ⟨c0, hc0mem, hc0free⟩ := hfree
    have hfind : freshCell ((h :: t) ++ apples.erase h) ≠ none := by
      intro hnone
      have hall := List.find?_eq_none.mp hnone c0 hc0mem
      simp at hall hc0free
      tauto
    obtain ⟨c, hcfind⟩ := Option.ne_none_iff_exists'.mp hfind
    have hp := List.find?_some hcfind
    have hcnot : c ∉ (h :: t) ++ apples.erase h := by
      simp at hp ⊢
      tauto
    have hcfind2 : freshCell (h :: (t ++ apples.erase h)) = some c := by
      simpa using hcfind
    have heat : eat apples (h :: t) = apples.erase h ++ [c] := by
      simp [eat, hmem, hcfind2]
    refine ⟨c, heat, ?_, ?_⟩
    · intro hin
      exact hcnot (List.mem_append_left _ hin)
    · rw [heat]
      have h1 : (apples.erase h).length = apples.length - 1 :=
        List.length_erase_of_mem hmem
      have h2 : 0 < apples.length := List.length_pos_of_mem hmem
      simp [h1]
      omega

/-- Witness for C6: a head away from the single food cell leaves the set
unchanged; a head on the food cell yields a same-size set whose
replacement cell avoids the snake. -/
theorem claim_C6_eat_witness :
    eat [⟨0, 0⟩] [⟨5, 5⟩] = [⟨0, 0⟩] ∧
    ∃ c, eat [⟨0, 0⟩] [⟨0, 0⟩] = ([⟨0, 0⟩] : List Point2D).erase ⟨0, 0⟩ ++ [c] ∧
      c ∉ ([⟨0, 0⟩] : List Point2D) ∧
      (eat [⟨0, 0⟩] [⟨0, 0⟩]).length = ([⟨0, 0⟩] : List Point2D).length :=
  ⟨claim_C6_eat.1 [⟨0, 0⟩] ⟨5, 5⟩ [] (by decide),
   claim_C6_eat.2 [⟨0, 0⟩] ⟨0, 0⟩ [] (by decide)
     ⟨⟨0, 1⟩, by decide, by decide⟩⟩

lemma combineLatest3_eq_spec (st : CLState) :
    ∀ events : List SEvent,
      combineLatest3 st events =
        (List.range events.length).filterMap fun i =>
          emitOf (List.foldl clStep st (events.take (i + 1))) := by
  intro events
  induction events generalizing st with
  | nil => rfl
  | cons e rest ih =>
      rw [List.length_cons, List.range_succ_eq_map, List.filterMap_cons,
        List.filterMap_map]
      have h0 : List.foldl clStep st ((e :: rest).take 1) = clStep st e := rfl
      have hsucc : ∀ i : ℕ,
          (fun i => emitOf (List.foldl clStep st ((e :: rest).take (i + 1))))
              (Nat.succ i) =
            emitOf (List.foldl clStep (clStep st e) (rest.take (i + 1))) := by
        intro i
        rfl
      rw [h0]
      unfold combineLatest3
      cases hemit : emitOf (clStep st e) with
      | some s =>
          simp only [hemit]
          rw [ih (clStep st e)]
          congr 1
      | none =>
          simp only [hemit]
          rw [ih (clStep st e)]
          congr 1

/-- All three latest-value slots of the `combineLatest` store are filled. -/
def clReady (st : CLState) : Bool :=
  st.sn.isSome && st.ap.isSome && st.sc.isSome

lemma emitOf_isSome (st : CLState) : (emitOf st).isSome = clReady st := by
  rcases st with ⟨sn, ap, sc⟩
  cases sn <;> cases ap <;> cases sc <;> rfl

lemma clReady_step (st : CLState) (e : SEvent) (h : clReady st = true) :
    clReady (clStep st e) = true := by
  rcases st with ⟨sn, ap, sc⟩
  simp [clReady] at h
  obtain ⟨⟨h1, h2⟩, h3⟩ := h
  cases e <;> simp [clStep, clReady, h1, h2, h3]

lemma clReady_foldl :
    ∀ (events : List SEvent) (st : CLState), clReady st = true →
      clReady (List.foldl clStep st events) = true := by
  intro events
  induction events with
  | nil => intro st h; exact h
  | cons e rest ih =>
      intro st h
      exact ih (clStep st e) (clReady_step st e h)

lemma combineLatest3_nil_of_final_none (st : CLState) :
    ∀ events : List SEvent,
      emitOf (List.foldl clStep st events) = none →
      combineLatest3 st events = [] := by
  intro events
  induction events generalizing st with
  | nil => intro _; rfl
  | cons e rest ih =>
      intro hfin
      rw [List.foldl_cons] at hfin
      have hmid : emitOf (clStep st e) = none := by
        cases hemit : emitOf (clStep st e) with
        | none => rfl
        | some s =>
            have hr : clReady (clStep st e) = true := by
              rw [← emitOf_isSome, hemit]
              rfl
            have := clReady_foldl rest (clStep st e) hr
            rw [← emitOf_isSome, hfin] at this
            simp at this
      unfold combineLatest3
      rw [hmid]
      exact ih (clStep st e) hfin

/-- C7: every emission of `scene$` is the composite of the latest snake,
food and score values at an emission point of the trace (no partial
scenes, no mixing of values from different points), and no value is
emitted while any of the three inputs has yet to produce a value. -/
theorem claim_C7_scene (events : List SEvent) :
    sceneEmissions events = sceneEmissionsSpec events ∧
    (emitOf (List.foldl clStep clInit events) = none →
      sceneEmissions events = []) :=
  ⟨combineLatest3_eq_spec clInit events,
   combineLatest3_nil_of_final_none clInit events⟩

/-- Witness for C7 on a trace with a snake and a food emission but no
score emission: the spec version agrees and nothing is emitted. -/
theorem claim_C7_scene_witness :
    sceneEmissions [SEvent.snakeE [], SEvent.applesE [⟨3, 3⟩]] =
      sceneEmissionsSpec [SEvent.snakeE [], SEvent.applesE [⟨3, 3⟩]] ∧
    sceneEmissions [SEvent.snakeE [], SEvent.applesE [⟨3, 3⟩]] = [] :=
  ⟨(claim_C7_scene [SEvent.snakeE [], SEvent.applesE [⟨3, 3⟩]]).1,
   (claim_C7_scene [SEvent.snakeE [], SEvent.applesE [⟨3, 3⟩]]).2 (by decide)⟩

lemma sampledScenes_mem :
    ∀ (events : List GEvent) (latest : Option Scene) (s : Scene),
      s ∈ sampledScenes latest events →
      GEvent.sceneEmit s ∈ events ∨ latest = some s := by
  intro events
  induction events with
  | nil => intro latest s hs; simp [sampledScenes] at hs
  | cons e rest ih =>
      intro latest s hs
      cases e with
      | frame =>
          cases latest with
          | none =>
              rcases ih none s hs with h | h
              · exact Or.inl (List.mem_cons_of_mem _ h)
              · exact absurd h (by simp)
          | some x =>
              simp only [sampledScenes, List.mem_cons] at hs
              rcases hs with rfl | hs
              · exact Or.inr rfl
              · rcases ih (some x) s hs with h | h
                · exact Or.inl (List.mem_cons_of_mem _ h)
                · exact Or.inr h
      | sceneEmit v =>
          rcases ih (some v) s hs with h | h
          · exact Or.inl (List.mem_cons_of_mem _ h)
          · rw [Option.some_inj] at h
            subst h
            exact Or.inl (List.mem_cons_self _ _)

/-- C10: animation-frame ticks firing before the first `scene$` emission
are dropped by `withLatestFrom` — a run of leading frames changes nothing —
and every scene handed to the render sink is one that `scene$` actually
emitted, so `renderScene` is never invoked with an absent scene. -/
theorem claim_C10_no_early_render :
    (∀ (k : ℕ) (rest : List GEvent),
      gameSamples (List.replicate k GEvent.frame ++ rest) = gameSamples rest) ∧
    (∀ (events : List GEvent) (s : Scene),
      s ∈ gameSamples events → GEvent.sceneEmit s ∈ events) := by
  constructor
  · intro k rest
    induction k with
    | zero => rfl
    | succ n ih => simpa [gameSamples, List.replicate_succ, sampledScenes] using ih
  · intro events s hs
    rcases sampledScenes_mem events none s hs with h | h
    · exact h
    · exact absurd h (by simp)

/-- Witness for C10: one leading frame is dropped, and the one rendered
scene is the one the scene stream emitted. -/
theorem claim_C10_no_early_render_witness :
    gameSamples (List.replicate 1 GEvent.frame ++
        [GEvent.sceneEmit ⟨[⟨1, 1⟩], [], 0⟩, GEvent.frame]) =
      gameSamples [GEvent.sceneEmit ⟨[⟨1, 1⟩], [], 0⟩, GEvent.frame] ∧
    GEvent.sceneEmit ⟨[⟨1, 1⟩], [], 0⟩ ∈
      [GEvent.sceneEmit ⟨[⟨1, 1⟩], [], 0⟩, GEvent.frame] :=
  ⟨claim_C10_no_early_render.1 1
      [GEvent.sceneEmit ⟨[⟨1, 1⟩], [], 0⟩, GEvent.frame],
   claim_C10_no_early_render.2
      [GEvent.sceneEmit ⟨[⟨1, 1⟩], [], 0⟩, GEvent.frame]
      ⟨[⟨1, 1⟩], [], 0⟩ (by decide)⟩

end RxSnake
